import Mathlib

/-!
Shallow embedding of `contrib/basic_archive/basic_archive.c` and
`src/port/pg_popcount_avx512.c`.

The archive module is modelled over a flat filesystem (an association list
from path strings to byte lists).  Operating-system behaviour that the C
code observes through syscall results (stat/unlink/open/read/write/close
failures, `durable_rename` failure) is supplied by an explicit oracle, and
every filesystem-touching step is recorded in an event trace so that
temporal claims (ordering of checks, commit sequencing) can be stated.
-/

namespace BasicArchive

/-- Bytes are modelled as natural numbers (each `< 256` where it matters). -/
abbrev Byte := Nat

/-- A flat filesystem: association list from path strings to file contents. -/
abbrev FS := List (String × List Byte)

/-- Contents of the file at path `p`, if present. -/
def FS.get (fs : FS) (p : String) : Option (List Byte) :=
  List.lookup p fs

/-- Create or overwrite the file at path `p` with contents `c`. -/
def FS.set (fs : FS) (p : String) (c : List Byte) : FS :=
  (p, c) :: fs.filter (fun e => e.1 != p)

/-- Remove the file at path `p` (no-op when absent). -/
def FS.remove (fs : FS) (p : String) : FS :=
  fs.filter (fun e => e.1 != p)

/-- Whether a file exists at path `p` (what a successful `stat` reports). -/
def FS.hasFile (fs : FS) (p : String) : Bool :=
  (fs.get p).isSome

/-- The error kinds reported (via `ereport(WARNING, ...)`) by the module. -/
inductive ArchiveError
  | noArchiveDirectory
  | pathTooLong
  | alreadyExists
  | statFailed
  | unlinkFailed
  | openSrcFailed
  | openDstFailed
  | readFailed
  | writeFailed (errno : Nat)
  | closeDstFailed
  | closeSrcFailed
  | renameFailed
deriving DecidableEq, Repr

/-- Filesystem-touching events, in the order the code performs them. -/
inductive Event
  | statE (p : String)
  | unlinkE (p : String)
  | openReadE (p : String)
  | openCreateE (p : String)
  | readE (p : String) (n : Nat)
  | writeE (p : String) (n : Nat)
  | closeE (p : String)
  | fsyncFileE (p : String)
  | renameE (old new : String)
  | fsyncDirE (p : String)
deriving DecidableEq, Repr

/-- Does this event create or write data under path `p` directly? -/
def Event.writesTo (e : Event) (p : String) : Bool :=
  match e with
  | .openCreateE q => q == p
  | .writeE q _ => q == p
  | _ => false

/-- Errors of the copy/transfer and commit phases (as opposed to the
precondition checks): source/destination open, read, write, close and
rename failures. -/
def ArchiveError.isTransferError : ArchiveError → Bool
  | .openSrcFailed => true
  | .openDstFailed => true
  | .readFailed => true
  | .writeFailed _ => true
  | .closeDstFailed => true
  | .closeSrcFailed => true
  | .renameFailed => true
  | _ => false

/-- Is this event part of the durable-commit machinery? -/
def Event.isCommit (e : Event) : Bool :=
  match e with
  | .fsyncFileE _ => true
  | .renameE _ _ => true
  | .fsyncDirE _ => true
  | _ => false

/-- Outcomes of the syscalls the code performs, supplied by the environment.
`readFails k` makes the `k`-th `read` call return `-1`; `writeCap k = some c`
makes the `k`-th `write` call transfer at most `c` bytes (a short write when
`c` is below the requested count), with `writeErrno k` the `errno` it leaves
(`0` = unset); the `Bool` fields force a failure of the corresponding call. -/
structure Oracle where
  statDestFails : Bool
  unlinkFails : Bool
  srcOpenFails : Bool
  dstOpenFails : Bool
  readFails : Nat → Bool
  writeCap : Nat → Option Nat
  writeErrno : Nat → Nat
  dstCloseFails : Bool
  srcCloseFails : Bool
  renameFails : Bool

/-- An oracle under which every syscall succeeds. -/
def cleanOracle : Oracle :=
  ⟨false, false, false, false, fun _ => false, fun _ => none, fun _ => 0,
   false, false, false⟩

def MAXPGPATH : Nat := 1024

def TEMP_FILE_NAME : String := "archtemp"

def COPY_BUF_SIZE : Nat := 64 * 1024

def ENOSPC : Nat := 28

/-- The read/write loop of `copy_file` (basic_archive.c:180-208): read up to
`COPY_BUF_SIZE` bytes, stop at EOF, fail on a read error or on a write that
transfers fewer bytes than requested (inferring `ENOSPC` when the failing
write left `errno` unset).  Returns the error (if any), the bytes written to
the destination so far, and the trace of successful read/write calls.
`k` counts read/write iterations, `rest` is the unread part of the source,
`dstC` the bytes already written.  The first (fuel) argument bounds the
recursion so that the definition is structural and computable by the kernel;
`copy_file` passes `content.length + 1`, which always suffices because each
iteration consumes `COPY_BUF_SIZE ≥ 1` source bytes, so the out-of-fuel
result is never reached from `copy_file`. -/
def copyLoop (o : Oracle) : Nat → Nat → List Byte → List Byte → String → String →
    Option ArchiveError × List Byte × List Event
  | 0, _, _, dstC, _, _ => (some .readFailed, dstC, [])
  | fuel + 1, k, rest, dstC, src, dst =>
    if o.readFails k then
      (some .readFailed, dstC, [])
    else
      match rest with
      | [] => (none, dstC, [.readE src 0])
      | b :: bs =>
        let chunk := (b :: bs).take COPY_BUF_SIZE
        match o.writeCap k with
        | none =>
            let r := copyLoop o fuel (k+1) ((b :: bs).drop COPY_BUF_SIZE) (dstC ++ chunk) src dst
            (r.1, r.2.1, .readE src chunk.length :: .writeE dst chunk.length :: r.2.2)
        | some cap =>
            if chunk.length ≤ cap then
              let r := copyLoop o fuel (k+1) ((b :: bs).drop COPY_BUF_SIZE) (dstC ++ chunk) src dst
              (r.1, r.2.1, .readE src chunk.length :: .writeE dst chunk.length :: r.2.2)
            else
              (some (.writeFailed (if o.writeErrno k = 0 then ENOSPC else o.writeErrno k)),
               dstC ++ chunk.take cap,
               [.readE src chunk.length, .writeE dst cap])

/-- Result of `copy_file`: success flag, reported error, resulting filesystem,
number of transient file handles still open when the function returns, and
the event trace. -/
structure CopyResult where
  ok : Bool
  err : Option ArchiveError
  fs : FS
  openHandles : Nat
  trace : List Event
deriving DecidableEq, Repr

/-- `copy_file` (basic_archive.c:157-226): open the source read-only, open the
destination with `O_CREAT | O_EXCL` (fails when it already exists), stream the
contents through `copyLoop`, then close destination and source, checking each
close.  Mirrors the C control flow exactly: the early `return false` paths do
not close the handles that were already opened. -/
def copy_file (o : Oracle) (fs : FS) (src dst : String) : CopyResult :=
  match fs.get src with
  | none => ⟨false, some .openSrcFailed, fs, 0, []⟩
  | some content =>
    if o.srcOpenFails then
      ⟨false, some .openSrcFailed, fs, 0, []⟩
    else if fs.hasFile dst || o.dstOpenFails then
      ⟨false, some .openDstFailed, fs, 1, [.openReadE src]⟩
    else
      let fs1 := fs.set dst []
      let r := copyLoop o (content.length + 1) 0 content [] src dst
      match r.1 with
      | some e =>
          ⟨false, some e, fs1.set dst r.2.1, 2,
           .openReadE src :: .openCreateE dst :: r.2.2⟩
      | none =>
          let fs2 := fs1.set dst r.2.1
          if o.dstCloseFails then
            ⟨false, some .closeDstFailed, fs2, 1,
             .openReadE src :: .openCreateE dst :: (r.2.2 ++ [.closeE dst])⟩
          else if o.srcCloseFails then
            ⟨false, some .closeSrcFailed, fs2, 0,
             .openReadE src :: .openCreateE dst :: (r.2.2 ++ [.closeE dst, .closeE src])⟩
          else
            ⟨true, none, fs2, 0,
             .openReadE src :: .openCreateE dst :: (r.2.2 ++ [.closeE dst, .closeE src])⟩

/-- Modelled from the spec: `durable_rename` (declared in `storage/fd.h`; its
body is not under `src/`).  Per the spec (§4.1, §4.6 and the glossary), it
flushes the temporary file's data and metadata, atomically renames it onto the
destination, then flushes the containing directory, reporting success only
when the whole chain succeeds; a failure leaves no final artifact behind. -/
def durable_rename (o : Oracle) (fs : FS) (oldp newp dir : String) :
    Bool × FS × List Event :=
  if o.renameFails then
    (false, fs, [])
  else
    match fs.get oldp with
    | none => (false, fs, [])
    | some c =>
        (true, (fs.remove oldp).set newp c,
         [.fsyncFileE oldp, .renameE oldp newp, .fsyncDirE dir])

/-- Result of `_PG_archive`: boolean return value, reported error (if any),
resulting filesystem and event trace. -/
structure ArchiveResult where
  ok : Bool
  err : Option ArchiveError
  fs : FS
  trace : List Event
deriving DecidableEq, Repr

/-- `_PG_archive` (basic_archive.c:76-155): check the directory setting, the
combined path length, stat the destination (conflict when present), unlink any
stale temporary file, copy the source to the temporary path, and durably
rename it onto the destination.  `archive_directory` is the module's GUC
setting (`none` models a NULL pointer). -/
def PG_archive (o : Oracle) (archive_directory : Option String) (fs : FS)
    (path file : String) : ArchiveResult :=
  if archive_directory = none ∨ archive_directory = some "" then
    ⟨false, some .noArchiveDirectory, fs, []⟩
  else if MAXPGPATH ≤ path.length + max file.length TEMP_FILE_NAME.length + 2 then
    ⟨false, some .pathTooLong, fs, []⟩
  else
    let destination := path ++ "/" ++ file
    let temp := path ++ "/" ++ TEMP_FILE_NAME
    if fs.hasFile destination then
      ⟨false, some .alreadyExists, fs, [.statE destination]⟩
    else if o.statDestFails then
      ⟨false, some .statFailed, fs, [.statE destination]⟩
    else if o.unlinkFails then
      ⟨false, some .unlinkFailed, fs, [.statE destination, .unlinkE temp]⟩
    else
      let fs1 := fs.remove temp
      let c := copy_file o fs1 path temp
      if c.ok then
        let r := durable_rename o c.fs temp destination path
        ⟨r.1, if r.1 then none else some .renameFailed, r.2.1,
         .statE destination :: .unlinkE temp :: (c.trace ++ r.2.2)⟩
      else
        ⟨false, c.err, c.fs, .statE destination :: .unlinkE temp :: c.trace⟩


/-- `check_archive_directory` (basic_archive.c:59-74), the GUC check hook for
`basic_archive.archive_directory`: accept a NULL or empty value immediately;
otherwise `stat` the value and require an existing directory.  `statEnv p` is
what the filesystem reports for path `p`: `none` when `stat` fails, and
`some isdir` when it succeeds with `S_ISDIR` equal to `isdir`. -/
def check_archive_directory (statEnv : String → Option Bool)
    (newval : Option String) : Bool :=
  match newval with
  | none => true
  | some s =>
    if s = "" then true
    else
      match statEnv s with
      | none => false
      | some isdir => isdir

end BasicArchive

/-!
Model of `pg_popcount_avx512` (`src/port/pg_popcount_avx512.c`), over byte
buffers represented as lists of naturals `< 256`.  A 512-bit vector is
represented as its list of eight 64-bit lanes; lanewise operations act on
those lists, with 64-bit wraparound made explicit.
-/

namespace Popcount

/-- Number of 1-bits in the binary representation of `n`. -/
def popcount : Nat → Nat
  | 0 => 0
  | n + 1 => (n + 1) % 2 + popcount ((n + 1) / 2)
decreasing_by exact Nat.div_lt_self (Nat.succ_pos n) (by omega)

/-- Total number of 1-bits in a list of bytes (the scalar reference count). -/
def pc (l : List Nat) : Nat := (l.map popcount).sum

/-- The 64-bit value formed by a run of bytes, first byte least significant
(x86 is little-endian, so this is how a lane of `_mm512_loadu_si512` reads
8 consecutive bytes). -/
def bytesToWord (bs : List Nat) : Nat := bs.foldr (fun b acc => b + 256 * acc) 0

/-- The eight 64-bit lanes of a 512-bit vector loaded from a 64-byte block,
the way `_mm512_loadu_si512` interprets 64 consecutive bytes (8 bytes per
lane, little-endian within each lane). -/
def toLanes (block : List Nat) : List Nat :=
  [bytesToWord ((block.drop 0).take 8),
   bytesToWord ((block.drop 8).take 8),
   bytesToWord ((block.drop 16).take 8),
   bytesToWord ((block.drop 24).take 8),
   bytesToWord ((block.drop 32).take 8),
   bytesToWord ((block.drop 40).take 8),
   bytesToWord ((block.drop 48).take 8),
   bytesToWord ((block.drop 56).take 8)]

def U64 : Nat := 2 ^ 64

/-- `_mm512_add_epi64`: lanewise 64-bit (wrapping) addition. -/
def vecAdd64 (a b : List Nat) : List Nat :=
  List.zipWith (fun x y => (x + y) % U64) a b

/-- `_mm512_popcnt_epi64`: lanewise population count. -/
def vecPopcnt64 (v : List Nat) : List Nat := v.map popcount

/-- `_mm512_reduce_add_epi64`: the 64-bit (wrapping) sum of the lanes. -/
def reduceAdd64 (v : List Nat) : Nat := v.foldl (fun a x => (a + x) % U64) 0

/-- `_mm512_setzero_si512`, viewed as eight zero lanes. -/
def zeroVec : List Nat := List.replicate 8 0

/-- Modelled from the spec: `pg_popcount_fast` is declared in
`port/pg_bitutils.h` but its body (`src/port/pg_popcount.c`) is not under
`src/`; the source comment of `pg_popcount_avx512.c` relies on it as the
fallback that "Returns the number of 1-bits in buf", which is what this
model returns for the first `bytes` bytes. -/
def pg_popcount_fast (buf : List Nat) (bytes : Nat) : Nat := pc (buf.take bytes)

/-- The 64-byte block loop of `pg_popcount_avx512`
(pg_popcount_avx512.c:35-42): while at least `sizeof(__m512i) = 64` bytes
remain, load a 64-byte vector, take its lanewise population count, add it
lanewise into the accumulator, and advance the buffer. -/
def avxLoop (buf : List Nat) (bytes : Nat) (accum : List Nat) :
    List Nat × List Nat × Nat :=
  if h : 64 ≤ bytes then
    avxLoop (buf.drop 64) (bytes - 64)
      (vecAdd64 accum (vecPopcnt64 (toLanes (buf.take 64))))
  else
    (accum, buf, bytes)
termination_by bytes
decreasing_by omega

/-- `pg_popcount_avx512` (pg_popcount_avx512.c:30-47): run the 64-byte block
loop from a zero accumulator, reduce the accumulator lanes with
`_mm512_reduce_add_epi64`, and add `pg_popcount_fast` of the remainder
(`uint64` arithmetic, hence the final wraparound). -/
def pg_popcount_avx512 (buf : List Nat) (bytes : Nat) : Nat :=
  let r := avxLoop buf bytes zeroVec
  (reduceAdd64 r.1 + pg_popcount_fast r.2.1 r.2.2) % U64

/-- The scalar reference the claim compares against: the exact number of
1-bits in the first `bytes` bytes of the buffer. -/
def spec_popcount (buf : List Nat) (bytes : Nat) : Nat := pc (buf.take bytes)

end Popcount

/-!
Supporting lemmas about the filesystem model, path strings and the copy loop.
-/

namespace BasicArchive

theorem FS.get_set_self (fs : FS) (p : String) (c : List Byte) :
    (fs.set p c).get p = some c := by
  simp [FS.get, FS.set, List.lookup]

theorem FS.lookup_filter_ne (fs : FS) (p q : String) (h : q ≠ p) :
    List.lookup q (fs.filter (fun e => e.1 != p)) = List.lookup q fs := by
  induction fs with
  | nil => rfl
  | cons e rest ih =>
      obtain ⟨k, v⟩ := e
      by_cases hk : k = p
      · have h1 : (k != p) = false := by simp [hk]
        have h2 : (q == k) = false := by simp [hk, h]
        simp [List.filter_cons, h1, List.lookup, h2, ih]
      · have h1 : (k != p) = true := by simp [hk]
        by_cases hq : q = k
        · simp [List.filter_cons, h1, List.lookup, hq]
        · have h2 : (q == k) = false := by simp [hq]
          simp [List.filter_cons, h1, List.lookup, h2, ih]

theorem FS.get_set_ne (fs : FS) (p q : String) (c : List Byte) (h : q ≠ p) :
    (fs.set p c).get q = fs.get q := by
  have hq : (q == p) = false := by simp [h]
  simp [FS.get, FS.set, List.lookup, hq, FS.lookup_filter_ne fs p q h]

theorem FS.get_remove_self (fs : FS) (p : String) :
    (fs.remove p).get p = none := by
  induction fs with
  | nil => rfl
  | cons e rest ih =>
      obtain ⟨k, v⟩ := e
      by_cases hk : k = p
      · have h1 : (k != p) = false := by simp [hk]
        simpa [FS.remove, List.filter_cons, h1] using ih
      · have h1 : (k != p) = true := by simp [hk]
        have h2 : (p == k) = false := by
          rw [beq_eq_false_iff_ne]
          exact Ne.symm hk
        simp only [FS.remove, List.filter_cons, h1, if_true] at ih ⊢
        simpa [FS.get, List.lookup, h2] using ih

theorem FS.get_remove_ne (fs : FS) (p q : String) (h : q ≠ p) :
    (fs.remove p).get q = fs.get q := by
  simp [FS.remove, FS.get, FS.lookup_filter_ne fs p q h]

theorem slash_length : ("/" : String).length = 1 := rfl

/-- `"%s/%s"` of a directory and a name is always a strictly longer string
than the directory alone. -/
theorem joined_ne_base (path file : String) : path ++ "/" ++ file ≠ path := by
  intro h
  have hl := congrArg String.length h
  rw [String.length_append, String.length_append, slash_length] at hl
  omega

/-- Two `"%s/%s"` joins with the same directory agree exactly when the names
agree. -/
theorem joined_eq_joined_iff (path file file' : String) :
    path ++ "/" ++ file = path ++ "/" ++ file' ↔ file = file' := by
  constructor
  · intro h
    have hd : (path ++ "/").data ++ file.data = (path ++ "/").data ++ file'.data :=
      congrArg String.data h
    exact String.ext (List.append_cancel_left hd)
  · intro h
    rw [h]

theorem copyLoop_ok_content (o : Oracle) (fuel k : Nat) (rest dstC : List Byte)
    (src dst : String) :
    (copyLoop o fuel k rest dstC src dst).1 = none →
    (copyLoop o fuel k rest dstC src dst).2.1 = dstC ++ rest := by
  induction fuel, k, rest, dstC, src, dst using copyLoop.induct o with
  | case1 k rest dstC src dst =>
      intro h
      simp [copyLoop] at h
  | case2 fuel k rest dstC src dst hr =>
      intro h
      simp [copyLoop, hr] at h
  | case3 fuel k dstC src dst hr =>
      intro _
      simp [copyLoop, hr]
  | case4 fuel k dstC src dst hr b bs chunk hcap ih =>
      intro h
      simp [copyLoop, hr, hcap] at h ⊢
      rw [ih h, List.append_assoc, List.take_append_drop]
  | case5 fuel k dstC src dst hr b bs chunk cap hcap hle ih =>
      intro h
      have hle' : COPY_BUF_SIZE ≤ cap ∨ bs.length + 1 ≤ cap := by
        rw [List.length_take, List.length_cons] at hle
        omega
      simp [copyLoop, hr, hcap] at h ⊢
      rw [if_pos hle'] at h ⊢
      rw [ih h, List.append_assoc, List.take_append_drop]
  | case6 fuel k dstC src dst hr b bs chunk cap hcap hgt =>
      intro h
      exfalso
      have hgt' : ¬(COPY_BUF_SIZE ≤ cap ∨ bs.length + 1 ≤ cap) := by
        rw [List.length_take, List.length_cons] at hgt
        omega
      simp [copyLoop, hr, hcap] at h
      rw [if_neg hgt'] at h
      simp at h

theorem copyLoop_trace_mem (o : Oracle) (fuel k : Nat) (rest dstC : List Byte)
    (src dst : String) :
    ∀ e ∈ (copyLoop o fuel k rest dstC src dst).2.2,
      (∃ n, e = .readE src n) ∨ (∃ n, e = .writeE dst n) := by
  induction fuel, k, rest, dstC, src, dst using copyLoop.induct o with
  | case1 k rest dstC src dst =>
      intro e he
      simp [copyLoop] at he
  | case2 fuel k rest dstC src dst hr =>
      intro e he
      simp [copyLoop, hr] at he
  | case3 fuel k dstC src dst hr =>
      intro e he
      simp [copyLoop, hr] at he
      exact Or.inl ⟨0, he⟩
  | case4 fuel k dstC src dst hr b bs chunk hcap ih =>
      intro e he
      simp [copyLoop, hr, hcap] at he
      rcases he with he | he | he
      · exact Or.inl ⟨_, he⟩
      · exact Or.inr ⟨_, he⟩
      · exact ih e he
  | case5 fuel k dstC src dst hr b bs chunk cap hcap hle ih =>
      intro e he
      have hle' : COPY_BUF_SIZE ≤ cap ∨ bs.length + 1 ≤ cap := by
        rw [List.length_take, List.length_cons] at hle
        omega
      simp [copyLoop, hr, hcap] at he
      rw [if_pos hle'] at he
      simp at he
      rcases he with he | he | he
      · exact Or.inl ⟨_, he⟩
      · exact Or.inr ⟨_, he⟩
      · exact ih e he
  | case6 fuel k dstC src dst hr b bs chunk cap hcap hgt =>
      intro e he
      have hgt' : ¬(COPY_BUF_SIZE ≤ cap ∨ bs.length + 1 ≤ cap) := by
        rw [List.length_take, List.length_cons] at hgt
        omega
      simp [copyLoop, hr, hcap] at he
      rw [if_neg hgt'] at he
      simp at he
      rcases he with he | he
      · exact Or.inl ⟨_, he⟩
      · exact Or.inr ⟨_, he⟩

theorem copyLoop_err (o : Oracle) (fuel k : Nat) (rest dstC : List Byte)
    (src dst : String) (e : ArchiveError) :
    (copyLoop o fuel k rest dstC src dst).1 = some e →
    e = .readFailed ∨ ∃ n, e = .writeFailed n := by
  induction fuel, k, rest, dstC, src, dst using copyLoop.induct o with
  | case1 k rest dstC src dst =>
      intro h
      simp [copyLoop] at h
      exact Or.inl h.symm
  | case2 fuel k rest dstC src dst hr =>
      intro h
      simp [copyLoop, hr] at h
      exact Or.inl h.symm
  | case3 fuel k dstC src dst hr =>
      intro h
      simp [copyLoop, hr] at h
  | case4 fuel k dstC src dst hr b bs chunk hcap ih =>
      intro h
      simp [copyLoop, hr, hcap] at h
      exact ih h
  | case5 fuel k dstC src dst hr b bs chunk cap hcap hle ih =>
      intro h
      have hle' : COPY_BUF_SIZE ≤ cap ∨ bs.length + 1 ≤ cap := by
        rw [List.length_take, List.length_cons] at hle
        omega
      simp [copyLoop, hr, hcap] at h
      rw [if_pos hle'] at h
      exact ih h
  | case6 fuel k dstC src dst hr b bs chunk cap hcap hgt =>
      intro h
      have hgt' : ¬(COPY_BUF_SIZE ≤ cap ∨ bs.length + 1 ≤ cap) := by
        rw [List.length_take, List.length_cons] at hgt
        omega
      simp [copyLoop, hr, hcap] at h
      rw [if_neg hgt'] at h
      simp at h
      exact Or.inr ⟨_, h.symm⟩

theorem copyLoop_writeFailed_errno (o : Oracle) (fuel k : Nat) (rest dstC : List Byte)
    (src dst : String) (n : Nat) :
    (copyLoop o fuel k rest dstC src dst).1 = some (.writeFailed n) →
    ∃ j cap, o.writeCap j = some cap ∧
      n = if o.writeErrno j = 0 then ENOSPC else o.writeErrno j := by
  induction fuel, k, rest, dstC, src, dst using copyLoop.induct o with
  | case1 k rest dstC src dst =>
      intro h
      simp [copyLoop] at h
  | case2 fuel k rest dstC src dst hr =>
      intro h
      simp [copyLoop, hr] at h
  | case3 fuel k dstC src dst hr =>
      intro h
      simp [copyLoop, hr] at h
  | case4 fuel k dstC src dst hr b bs chunk hcap ih =>
      intro h
      simp [copyLoop, hr, hcap] at h
      exact ih h
  | case5 fuel k dstC src dst hr b bs chunk cap hcap hle ih =>
      intro h
      have hle' : COPY_BUF_SIZE ≤ cap ∨ bs.length + 1 ≤ cap := by
        rw [List.length_take, List.length_cons] at hle
        omega
      simp [copyLoop, hr, hcap] at h
      rw [if_pos hle'] at h
      exact ih h
  | case6 fuel k dstC src dst hr b bs chunk cap hcap hgt =>
      intro h
      have hgt' : ¬(COPY_BUF_SIZE ≤ cap ∨ bs.length + 1 ≤ cap) := by
        rw [List.length_take, List.length_cons] at hgt
        omega
      simp [copyLoop, hr, hcap] at h
      rw [if_neg hgt'] at h
      simp at h
      exact ⟨k, cap, hcap, h.symm⟩

theorem copyLoop_short_write (o : Oracle) (fuel k : Nat) (b : Byte)
    (bs dstC : List Byte) (src dst : String) (cap : Nat)
    (hr : o.readFails k = false) (hcap : o.writeCap k = some cap)
    (hlt : cap < ((b :: bs).take COPY_BUF_SIZE).length) :
    (copyLoop o (fuel + 1) k (b :: bs) dstC src dst).1 =
      some (.writeFailed (if o.writeErrno k = 0 then ENOSPC else o.writeErrno k)) := by
  have hgt' : ¬(COPY_BUF_SIZE ≤ cap ∨ bs.length + 1 ≤ cap) := by
    rw [List.length_take, List.length_cons] at hlt
    omega
  simp [copyLoop, hr, hcap]
  rw [if_neg hgt']

theorem copy_file_ok_content (o : Oracle) (fs : FS) (src dst : String)
    (c : List Byte) (h : fs.get src = some c) :
    (copy_file o fs src dst).ok = true →
    (copy_file o fs src dst).fs.get dst = some c := by
  intro hok
  simp only [copy_file, h] at hok ⊢
  by_cases h1 : o.srcOpenFails = true
  · simp [h1] at hok
  · by_cases h2 : (fs.hasFile dst || o.dstOpenFails) = true
    · simp [h1, h2] at hok
    · simp only [h1, h2, Bool.false_eq_true, if_false] at hok ⊢
      cases hl : (copyLoop o (c.length + 1) 0 c [] src dst).1 with
      | some e => simp [hl] at hok
      | none =>
          simp only [hl] at hok ⊢
          have hc : (copyLoop o (c.length + 1) 0 c [] src dst).2.1 = c := by
            simpa using copyLoop_ok_content o (c.length + 1) 0 c [] src dst hl
          by_cases h3 : o.dstCloseFails = true
          · simp [h3] at hok
          · by_cases h4 : o.srcCloseFails = true
            · simp [h3, h4] at hok
            · simp only [h3, h4, Bool.false_eq_true, if_false]
              rw [hc]
              exact FS.get_set_self _ dst c

theorem copy_file_get_other (o : Oracle) (fs : FS) (src dst p : String)
    (hp : p ≠ dst) :
    (copy_file o fs src dst).fs.get p = fs.get p := by
  simp only [copy_file]
  cases hsrc : fs.get src with
  | none => rfl
  | some c =>
      by_cases h1 : o.srcOpenFails = true
      · simp [h1]
      · by_cases h2 : (fs.hasFile dst || o.dstOpenFails) = true
        · simp [h1, h2]
        · simp only [h1, h2, Bool.false_eq_true, if_false]
          cases hl : (copyLoop o (c.length + 1) 0 c [] src dst).1 with
          | some e =>
              simp only []
              rw [FS.get_set_ne _ _ _ _ hp, FS.get_set_ne _ _ _ _ hp]
          | none =>
              by_cases h3 : o.dstCloseFails = true
              · simp only [h3, if_true]
                rw [FS.get_set_ne _ _ _ _ hp, FS.get_set_ne _ _ _ _ hp]
              · by_cases h4 : o.srcCloseFails = true
                · simp only [h3, h4, Bool.false_eq_true, if_false, if_true]
                  rw [FS.get_set_ne _ _ _ _ hp, FS.get_set_ne _ _ _ _ hp]
                · simp only [h3, h4, Bool.false_eq_true, if_false]
                  rw [FS.get_set_ne _ _ _ _ hp, FS.get_set_ne _ _ _ _ hp]

theorem copy_file_err_transfer (o : Oracle) (fs : FS) (src dst : String)
    (e : ArchiveError) :
    (copy_file o fs src dst).err = some e → e.isTransferError = true := by
  intro he
  simp only [copy_file] at he
  cases hsrc : fs.get src with
  | none =>
      rw [hsrc] at he
      simp at he
      subst he
      rfl
  | some c =>
      rw [hsrc] at he
      by_cases h1 : o.srcOpenFails = true
      · simp [h1] at he
        subst he
        rfl
      · by_cases h2 : (fs.hasFile dst || o.dstOpenFails) = true
        · simp [h1, h2] at he
          subst he
          rfl
        · simp only [h1, h2, Bool.false_eq_true, if_false] at he
          cases hl : (copyLoop o (c.length + 1) 0 c [] src dst).1 with
          | some e' =>
              simp only [hl, Option.some.injEq] at he
              subst he
              rcases copyLoop_err o (c.length + 1) 0 c [] src dst e' hl with h | ⟨n, h⟩ <;>
                subst h <;> rfl
          | none =>
              simp only [hl] at he
              by_cases h3 : o.dstCloseFails = true
              · simp [h3] at he
                subst he
                rfl
              · by_cases h4 : o.srcCloseFails = true
                · simp [h3, h4] at he
                  subst he
                  rfl
                · simp [h3, h4] at he

theorem copy_file_writeFailed_errno (o : Oracle) (fs : FS) (src dst : String)
    (n : Nat) :
    (copy_file o fs src dst).err = some (.writeFailed n) →
    ∃ j cap, o.writeCap j = some cap ∧
      n = if o.writeErrno j = 0 then ENOSPC else o.writeErrno j := by
  intro he
  simp only [copy_file] at he
  cases hsrc : fs.get src with
  | none =>
      rw [hsrc] at he
      simp at he
  | some c =>
      rw [hsrc] at he
      by_cases h1 : o.srcOpenFails = true
      · simp [h1] at he
      · by_cases h2 : (fs.hasFile dst || o.dstOpenFails) = true
        · simp [h1, h2] at he
        · simp only [h1, h2, Bool.false_eq_true, if_false] at he
          cases hl : (copyLoop o (c.length + 1) 0 c [] src dst).1 with
          | some e' =>
              simp only [hl, Option.some.injEq] at he
              subst he
              exact copyLoop_writeFailed_errno o (c.length + 1) 0 c [] src dst n hl
          | none =>
              simp only [hl] at he
              by_cases h3 : o.dstCloseFails = true
              · simp [h3] at he
              · by_cases h4 : o.srcCloseFails = true
                · simp [h3, h4] at he
                · simp [h3, h4] at he

theorem copy_file_trace_writesTo (o : Oracle) (fs : FS) (src dst p : String)
    (hp : p ≠ dst) :
    ∀ e ∈ (copy_file o fs src dst).trace, e.writesTo p = false := by
  intro e he
  have hdp : (dst == p) = false := by
    rw [beq_eq_false_iff_ne]
    exact Ne.symm hp
  simp only [copy_file] at he
  cases hsrc : fs.get src with
  | none =>
      rw [hsrc] at he
      simp at he
  | some c =>
      rw [hsrc] at he
      by_cases h1 : o.srcOpenFails = true
      · simp [h1] at he
      · by_cases h2 : (fs.hasFile dst || o.dstOpenFails) = true
        · simp [h1, h2] at he
          subst he
          rfl
        · simp only [h1, h2, Bool.false_eq_true, if_false] at he
          have hloop : ∀ e' ∈ (copyLoop o (c.length + 1) 0 c [] src dst).2.2,
              Event.writesTo e' p = false := by
            intro e' he'
            rcases copyLoop_trace_mem o (c.length + 1) 0 c [] src dst e' he' with ⟨n, hn⟩ | ⟨n, hn⟩
            · subst hn
              rfl
            · subst hn
              simp [Event.writesTo, hdp]
          cases hl : (copyLoop o (c.length + 1) 0 c [] src dst).1 with
          | some e' =>
              simp only [hl, List.mem_cons] at he
              rcases he with he | he | he
              · subst he; rfl
              · subst he; simp [Event.writesTo, hdp]
              · exact hloop e he
          | none =>
              simp only [hl] at he
              have hmem : (e = Event.openReadE src ∨ e = Event.openCreateE dst ∨
                  e ∈ (copyLoop o (c.length + 1) 0 c [] src dst).2.2) ∨
                  e = Event.closeE dst ∨ e = Event.closeE src := by
                by_cases h3 : o.dstCloseFails = true
                · simp only [h3, if_true, List.mem_cons, List.mem_append,
                    List.mem_singleton] at he
                  tauto
                · by_cases h4 : o.srcCloseFails = true
                  · simp only [h3, h4, Bool.false_eq_true, if_false, if_true,
                      List.mem_cons, List.mem_append] at he
                    simp at he
                    tauto
                  · simp only [h3, h4, Bool.false_eq_true, if_false,
                      List.mem_cons, List.mem_append] at he
                    simp at he
                    tauto
              rcases hmem with (he' | he' | he') | he' | he'
              · subst he'; rfl
              · subst he'; simp [Event.writesTo, hdp]
              · exact hloop e he'
              · subst he'; rfl
              · subst he'; rfl

theorem copy_file_trace_noCommit (o : Oracle) (fs : FS) (src dst : String) :
    ∀ e ∈ (copy_file o fs src dst).trace, e.isCommit = false := by
  intro e he
  simp only [copy_file] at he
  cases hsrc : fs.get src with
  | none =>
      rw [hsrc] at he
      simp at he
  | some c =>
      rw [hsrc] at he
      by_cases h1 : o.srcOpenFails = true
      · simp [h1] at he
      · by_cases h2 : (fs.hasFile dst || o.dstOpenFails) = true
        · simp [h1, h2] at he
          subst he
          rfl
        · simp only [h1, h2, Bool.false_eq_true, if_false] at he
          have hloop : ∀ e' ∈ (copyLoop o (c.length + 1) 0 c [] src dst).2.2,
              Event.isCommit e' = false := by
            intro e' he'
            rcases copyLoop_trace_mem o (c.length + 1) 0 c [] src dst e' he' with ⟨n, hn⟩ | ⟨n, hn⟩ <;>
              subst hn <;> rfl
          cases hl : (copyLoop o (c.length + 1) 0 c [] src dst).1 with
          | some e' =>
              simp only [hl, List.mem_cons] at he
              rcases he with he | he | he
              · subst he; rfl
              · subst he; rfl
              · exact hloop e he
          | none =>
              simp only [hl] at he
              have hmem : (e = Event.openReadE src ∨ e = Event.openCreateE dst ∨
                  e ∈ (copyLoop o (c.length + 1) 0 c [] src dst).2.2) ∨
                  e = Event.closeE dst ∨ e = Event.closeE src := by
                by_cases h3 : o.dstCloseFails = true
                · simp only [h3, if_true, List.mem_cons, List.mem_append,
                    List.mem_singleton] at he
                  tauto
                · by_cases h4 : o.srcCloseFails = true
                  · simp only [h3, h4, Bool.false_eq_true, if_false, if_true,
                      List.mem_cons, List.mem_append] at he
                    simp at he
                    tauto
                  · simp only [h3, h4, Bool.false_eq_true, if_false,
                      List.mem_cons, List.mem_append] at he
                    simp at he
                    tauto
              rcases hmem with (he' | he' | he') | he' | he'
              · subst he'; rfl
              · subst he'; rfl
              · exact hloop e he'
              · subst he'; rfl
              · subst he'; rfl

theorem copy_file_ok_close (o : Oracle) (fs : FS) (src dst : String) :
    (copy_file o fs src dst).ok = true →
    Event.closeE dst ∈ (copy_file o fs src dst).trace := by
  intro hok
  simp only [copy_file] at hok ⊢
  cases hsrc : fs.get src with
  | none =>
      rw [hsrc] at hok
      simp at hok
  | some c =>
      rw [hsrc] at hok
      by_cases h1 : o.srcOpenFails = true
      · simp [h1] at hok
      · by_cases h2 : (fs.hasFile dst || o.dstOpenFails) = true
        · simp [h1, h2] at hok
        · simp only [hsrc, h1, h2, Bool.false_eq_true, if_false] at hok ⊢
          cases hl : (copyLoop o (c.length + 1) 0 c [] src dst).1 with
          | some e => simp [hl] at hok
          | none =>
              simp only [hl] at hok ⊢
              by_cases h3 : o.dstCloseFails = true
              · simp [h3] at hok
              · by_cases h4 : o.srcCloseFails = true
                · simp [h3, h4] at hok
                · simp [h3, h4]

theorem PG_archive_noDir (o : Oracle) (dir : Option String) (fs : FS)
    (path file : String) (h : dir = none ∨ dir = some "") :
    PG_archive o dir fs path file = ⟨false, some .noArchiveDirectory, fs, []⟩ := by
  unfold PG_archive
  rw [if_pos h]

theorem PG_archive_tooLong (o : Oracle) (dir : Option String) (fs : FS)
    (path file : String)
    (h1 : ¬(dir = none ∨ dir = some ""))
    (h2 : MAXPGPATH ≤ path.length + max file.length TEMP_FILE_NAME.length + 2) :
    PG_archive o dir fs path file = ⟨false, some .pathTooLong, fs, []⟩ := by
  unfold PG_archive
  rw [if_neg h1, if_pos h2]

theorem PG_archive_alreadyExists (o : Oracle) (dir : Option String) (fs : FS)
    (path file : String)
    (h1 : ¬(dir = none ∨ dir = some ""))
    (h2 : ¬ MAXPGPATH ≤ path.length + max file.length TEMP_FILE_NAME.length + 2)
    (h3 : fs.hasFile (path ++ "/" ++ file) = true) :
    PG_archive o dir fs path file =
      ⟨false, some .alreadyExists, fs, [.statE (path ++ "/" ++ file)]⟩ := by
  unfold PG_archive
  rw [if_neg h1, if_neg h2]
  simp only [h3, if_true]

theorem PG_archive_statFail (o : Oracle) (dir : Option String) (fs : FS)
    (path file : String)
    (h1 : ¬(dir = none ∨ dir = some ""))
    (h2 : ¬ MAXPGPATH ≤ path.length + max file.length TEMP_FILE_NAME.length + 2)
    (h3 : fs.hasFile (path ++ "/" ++ file) = false)
    (h4 : o.statDestFails = true) :
    PG_archive o dir fs path file =
      ⟨false, some .statFailed, fs, [.statE (path ++ "/" ++ file)]⟩ := by
  unfold PG_archive
  rw [if_neg h1, if_neg h2]
  simp only [h3, h4, Bool.false_eq_true, if_false, if_true]

theorem PG_archive_unlinkFail (o : Oracle) (dir : Option String) (fs : FS)
    (path file : String)
    (h1 : ¬(dir = none ∨ dir = some ""))
    (h2 : ¬ MAXPGPATH ≤ path.length + max file.length TEMP_FILE_NAME.length + 2)
    (h3 : fs.hasFile (path ++ "/" ++ file) = false)
    (h4 : o.statDestFails = false)
    (h5 : o.unlinkFails = true) :
    PG_archive o dir fs path file =
      ⟨false, some .unlinkFailed, fs,
       [.statE (path ++ "/" ++ file), .unlinkE (path ++ "/" ++ TEMP_FILE_NAME)]⟩ := by
  unfold PG_archive
  rw [if_neg h1, if_neg h2]
  simp only [h3, h4, h5, Bool.false_eq_true, if_false, if_true]

theorem PG_archive_copyPhase (o : Oracle) (dir : Option String) (fs : FS)
    (path file : String)
    (h1 : ¬(dir = none ∨ dir = some ""))
    (h2 : ¬ MAXPGPATH ≤ path.length + max file.length TEMP_FILE_NAME.length + 2)
    (h3 : fs.hasFile (path ++ "/" ++ file) = false)
    (h4 : o.statDestFails = false)
    (h5 : o.unlinkFails = false) :
    PG_archive o dir fs path file =
      (if (copy_file o (fs.remove (path ++ "/" ++ TEMP_FILE_NAME)) path
            (path ++ "/" ++ TEMP_FILE_NAME)).ok then
        ⟨(durable_rename o
            (copy_file o (fs.remove (path ++ "/" ++ TEMP_FILE_NAME)) path
              (path ++ "/" ++ TEMP_FILE_NAME)).fs
            (path ++ "/" ++ TEMP_FILE_NAME) (path ++ "/" ++ file) path).1,
         if (durable_rename o
             (copy_file o (fs.remove (path ++ "/" ++ TEMP_FILE_NAME)) path
               (path ++ "/" ++ TEMP_FILE_NAME)).fs
             (path ++ "/" ++ TEMP_FILE_NAME) (path ++ "/" ++ file) path).1 then none
         else some .renameFailed,
         (durable_rename o
            (copy_file o (fs.remove (path ++ "/" ++ TEMP_FILE_NAME)) path
              (path ++ "/" ++ TEMP_FILE_NAME)).fs
            (path ++ "/" ++ TEMP_FILE_NAME) (path ++ "/" ++ file) path).2.1,
         .statE (path ++ "/" ++ file) :: .unlinkE (path ++ "/" ++ TEMP_FILE_NAME) ::
           ((copy_file o (fs.remove (path ++ "/" ++ TEMP_FILE_NAME)) path
               (path ++ "/" ++ TEMP_FILE_NAME)).trace ++
            (durable_rename o
               (copy_file o (fs.remove (path ++ "/" ++ TEMP_FILE_NAME)) path
                 (path ++ "/" ++ TEMP_FILE_NAME)).fs
               (path ++ "/" ++ TEMP_FILE_NAME) (path ++ "/" ++ file) path).2.2)⟩
      else
        ⟨false,
         (copy_file o (fs.remove (path ++ "/" ++ TEMP_FILE_NAME)) path
           (path ++ "/" ++ TEMP_FILE_NAME)).err,
         (copy_file o (fs.remove (path ++ "/" ++ TEMP_FILE_NAME)) path
           (path ++ "/" ++ TEMP_FILE_NAME)).fs,
         .statE (path ++ "/" ++ file) :: .unlinkE (path ++ "/" ++ TEMP_FILE_NAME) ::
           (copy_file o (fs.remove (path ++ "/" ++ TEMP_FILE_NAME)) path
             (path ++ "/" ++ TEMP_FILE_NAME)).trace⟩) := by
  unfold PG_archive
  rw [if_neg h1, if_neg h2]
  simp only [h3, h4, h5, Bool.false_eq_true, if_false]

/-- Claim C1: for every source file contents (any size: 0 bytes, 1 byte,
exactly the 64 KiB chunk buffer, several times the chunk buffer), when
`_PG_archive` succeeds the final artifact at `destination_dir/destination_name`
is byte-identical to the source: the copy loop reads fixed-size chunks and
writes each chunk in full, preserving content and order. -/
theorem C1_round_trip (o : Oracle) (dir : Option String) (fs : FS)
    (path file : String) (c : List Byte)
    (hsrc : fs.get path = some c)
    (hok : (PG_archive o dir fs path file).ok = true) :
    (PG_archive o dir fs path file).fs.get (path ++ "/" ++ file) = some c := by
  by_cases h1 : dir = none ∨ dir = some ""
  · rw [PG_archive_noDir o dir fs path file h1] at hok
    simp at hok
  · by_cases h2 : MAXPGPATH ≤ path.length + max file.length TEMP_FILE_NAME.length + 2
    · rw [PG_archive_tooLong o dir fs path file h1 h2] at hok
      simp at hok
    · by_cases h3 : fs.hasFile (path ++ "/" ++ file) = true
      · rw [PG_archive_alreadyExists o dir fs path file h1 h2 h3] at hok
        simp at hok
      · have h3' : fs.hasFile (path ++ "/" ++ file) = false := by
          simpa using h3
        by_cases h4 : o.statDestFails = true
        · rw [PG_archive_statFail o dir fs path file h1 h2 h3' h4] at hok
          simp at hok
        · have h4' : o.statDestFails = false := by simpa using h4
          by_cases h5 : o.unlinkFails = true
          · rw [PG_archive_unlinkFail o dir fs path file h1 h2 h3' h4' h5] at hok
            simp at hok
          · have h5' : o.unlinkFails = false := by simpa using h5
            rw [PG_archive_copyPhase o dir fs path file h1 h2 h3' h4' h5'] at hok ⊢
            by_cases hc : (copy_file o (fs.remove (path ++ "/" ++ TEMP_FILE_NAME))
                path (path ++ "/" ++ TEMP_FILE_NAME)).ok = true
            · rw [if_pos hc] at hok ⊢
              have hget : (fs.remove (path ++ "/" ++ TEMP_FILE_NAME)).get path = some c := by
                rw [FS.get_remove_ne fs (path ++ "/" ++ TEMP_FILE_NAME) path
                  (Ne.symm (joined_ne_base path TEMP_FILE_NAME))]
                exact hsrc
              have htemp : (copy_file o (fs.remove (path ++ "/" ++ TEMP_FILE_NAME))
                  path (path ++ "/" ++ TEMP_FILE_NAME)).fs.get
                    (path ++ "/" ++ TEMP_FILE_NAME) = some c :=
                copy_file_ok_content o _ path (path ++ "/" ++ TEMP_FILE_NAME) c hget hc
              simp only [durable_rename] at hok ⊢
              by_cases hrn : o.renameFails = true
              · simp [hrn] at hok
              · simp only [hrn, Bool.false_eq_true, if_false] at hok ⊢
                rw [htemp] at hok ⊢
                exact FS.get_set_self _ _ c
            · rw [if_neg hc] at hok
              simp at hok

/-- Witness for C1 at a concrete input: archiving the 2-byte file `"d"` with
destination name `"f"` succeeds and produces `d/f` with the same bytes. -/
theorem C1_witness :
    (PG_archive cleanOracle (some "x") [("d", [5, 6])] "d" "f").fs.get
      ("d" ++ "/" ++ "f") = some [5, 6] :=
  C1_round_trip cleanOracle (some "x") [("d", [5, 6])] "d" "f" [5, 6]
    (by decide) (by decide)

theorem hasFile_false_get (fs : FS) (p : String) (h : fs.hasFile p = false) :
    fs.get p = none := by
  cases hg : fs.get p with
  | none => rfl
  | some c => simp [FS.hasFile, hg] at h

theorem durable_rename_fail_fs (o : Oracle) (fs : FS) (a b d : String)
    (h : (durable_rename o fs a b d).1 = false) :
    (durable_rename o fs a b d).2.1 = fs := by
  simp only [durable_rename] at h ⊢
  by_cases hr : o.renameFails = true
  · simp [hr]
  · simp only [hr, Bool.false_eq_true, if_false] at h ⊢
    cases hg : fs.get a with
    | none => simp
    | some c => simp [hg] at h

/-- Claim C2 (amended): provided the destination name differs from the
reserved temporary name `"archtemp"`, after `_PG_archive` fails at any
transfer/commit failure point (source or destination open fails, read fails,
write short-writes, temp or source close fails, rename fails) no final
artifact exists at the destination path — the filesystem holds no truncated
or corrupt final artifact (at most a temporary artifact remains). -/
theorem C2_no_final_on_failure (o : Oracle) (dir : Option String) (fs : FS)
    (path file : String) (e : ArchiveError)
    (hfile : file ≠ TEMP_FILE_NAME)
    (he : (PG_archive o dir fs path file).err = some e)
    (ht : e.isTransferError = true) :
    (PG_archive o dir fs path file).fs.get (path ++ "/" ++ file) = none := by
  have hne : path ++ "/" ++ file ≠ path ++ "/" ++ TEMP_FILE_NAME := by
    rw [Ne, joined_eq_joined_iff]
    exact hfile
  by_cases h1 : dir = none ∨ dir = some ""
  · rw [PG_archive_noDir o dir fs path file h1] at he
    simp at he
    subst he
    simp [ArchiveError.isTransferError] at ht
  · by_cases h2 : MAXPGPATH ≤ path.length + max file.length TEMP_FILE_NAME.length + 2
    · rw [PG_archive_tooLong o dir fs path file h1 h2] at he
      simp at he
      subst he
      simp [ArchiveError.isTransferError] at ht
    · by_cases h3 : fs.hasFile (path ++ "/" ++ file) = true
      · rw [PG_archive_alreadyExists o dir fs path file h1 h2 h3] at he
        simp at he
        subst he
        simp [ArchiveError.isTransferError] at ht
      · have h3' : fs.hasFile (path ++ "/" ++ file) = false := by
          simpa using h3
        have hdest : fs.get (path ++ "/" ++ file) = none := hasFile_false_get fs _ h3'
        by_cases h4 : o.statDestFails = true
        · rw [PG_archive_statFail o dir fs path file h1 h2 h3' h4] at he
          simp at he
          subst he
          simp [ArchiveError.isTransferError] at ht
        · have h4' : o.statDestFails = false := by simpa using h4
          by_cases h5 : o.unlinkFails = true
          · rw [PG_archive_unlinkFail o dir fs path file h1 h2 h3' h4' h5] at he
            simp at he
            subst he
            simp [ArchiveError.isTransferError] at ht
          · have h5' : o.unlinkFails = false := by simpa using h5
            have hcfs : (copy_file o (fs.remove (path ++ "/" ++ TEMP_FILE_NAME))
                path (path ++ "/" ++ TEMP_FILE_NAME)).fs.get (path ++ "/" ++ file) =
                none := by
              rw [copy_file_get_other o _ path _ _ hne,
                FS.get_remove_ne fs _ _ hne]
              exact hdest
            rw [PG_archive_copyPhase o dir fs path file h1 h2 h3' h4' h5'] at he ⊢
            by_cases hc : (copy_file o (fs.remove (path ++ "/" ++ TEMP_FILE_NAME))
                path (path ++ "/" ++ TEMP_FILE_NAME)).ok = true
            · rw [if_pos hc] at he ⊢
              by_cases hrn : (durable_rename o
                  (copy_file o (fs.remove (path ++ "/" ++ TEMP_FILE_NAME)) path
                    (path ++ "/" ++ TEMP_FILE_NAME)).fs
                  (path ++ "/" ++ TEMP_FILE_NAME) (path ++ "/" ++ file) path).1 = true
              · rw [if_pos hrn] at he
                simp at he
              · have hrn' : (durable_rename o
                    (copy_file o (fs.remove (path ++ "/" ++ TEMP_FILE_NAME)) path
                      (path ++ "/" ++ TEMP_FILE_NAME)).fs
                    (path ++ "/" ++ TEMP_FILE_NAME) (path ++ "/" ++ file) path).1 =
                    false := by simpa using hrn
                rw [durable_rename_fail_fs o _ _ _ _ hrn']
                exact hcfs
            · rw [if_neg hc] at he ⊢
              exact hcfs

/-- Counterexample to claim C2 as stated: with destination name equal to the
reserved temporary name `"archtemp"`, a read failure during the copy phase
leaves a truncated artifact (here: empty, though the source has one byte) at
the final destination path itself, so a final artifact exists after failure. -/
theorem C2_counterexample :
    (PG_archive { cleanOracle with readFails := fun _ => true } (some "x")
        [("p", [7])] "p" "archtemp").err = some .readFailed ∧
    (PG_archive { cleanOracle with readFails := fun _ => true } (some "x")
        [("p", [7])] "p" "archtemp").fs.get ("p" ++ "/" ++ "archtemp") =
      some [] := by
  decide

/-- Witness for C2 at a concrete input: a read failure while archiving file
`"p"` under name `"f"` leaves no final artifact at `p/f`. -/
theorem C2_witness :
    (PG_archive { cleanOracle with readFails := fun _ => true } (some "x")
        [("p", [7])] "p" "f").fs.get ("p" ++ "/" ++ "f") = none :=
  C2_no_final_on_failure { cleanOracle with readFails := fun _ => true }
    (some "x") [("p", [7])] "p" "f" .readFailed (by decide) (by decide) rfl

/-- Claim C3 (amended): provided the destination name differs from the
reserved temporary name `"archtemp"`, the final artifact is never written
directly: no event of any execution creates or writes the final destination
path, and on success the trace ends with flush of the fully-written temporary
file, a single atomic rename of it onto the destination (no earlier rename),
and the directory flush, with the temporary file's close (copy completion)
happening before the commit chain.  Success is reported only after the whole
chain succeeds. -/
theorem C3_commit_protocol (o : Oracle) (dir : Option String) (fs : FS)
    (path file : String) (hfile : file ≠ TEMP_FILE_NAME) :
    (∀ e ∈ (PG_archive o dir fs path file).trace,
        e.writesTo (path ++ "/" ++ file) = false) ∧
    ((PG_archive o dir fs path file).ok = true →
      ∃ pre, (PG_archive o dir fs path file).trace =
          pre ++ [.fsyncFileE (path ++ "/" ++ TEMP_FILE_NAME),
                  .renameE (path ++ "/" ++ TEMP_FILE_NAME) (path ++ "/" ++ file),
                  .fsyncDirE path] ∧
        Event.renameE (path ++ "/" ++ TEMP_FILE_NAME) (path ++ "/" ++ file) ∉ pre ∧
        Event.closeE (path ++ "/" ++ TEMP_FILE_NAME) ∈ pre) := by
  have hne : path ++ "/" ++ file ≠ path ++ "/" ++ TEMP_FILE_NAME := by
    rw [Ne, joined_eq_joined_iff]
    exact hfile
  by_cases h1 : dir = none ∨ dir = some ""
  · rw [PG_archive_noDir o dir fs path file h1]
    exact ⟨fun e he => by simp at he, fun hok => by simp at hok⟩
  · by_cases h2 : MAXPGPATH ≤ path.length + max file.length TEMP_FILE_NAME.length + 2
    · rw [PG_archive_tooLong o dir fs path file h1 h2]
      exact ⟨fun e he => by simp at he, fun hok => by simp at hok⟩
    · by_cases h3 : fs.hasFile (path ++ "/" ++ file) = true
      · rw [PG_archive_alreadyExists o dir fs path file h1 h2 h3]
        refine ⟨fun e he => ?_, fun hok => by simp at hok⟩
        simp at he
        subst he
        rfl
      · have h3' : fs.hasFile (path ++ "/" ++ file) = false := by simpa using h3
        by_cases h4 : o.statDestFails = true
        · rw [PG_archive_statFail o dir fs path file h1 h2 h3' h4]
          refine ⟨fun e he => ?_, fun hok => by simp at hok⟩
          simp at he
          subst he
          rfl
        · have h4' : o.statDestFails = false := by simpa using h4
          by_cases h5 : o.unlinkFails = true
          · rw [PG_archive_unlinkFail o dir fs path file h1 h2 h3' h4' h5]
            refine ⟨fun e he => ?_, fun hok => by simp at hok⟩
            simp at he
            rcases he with he | he <;> subst he <;> rfl
          · have h5' : o.unlinkFails = false := by simpa using h5
            rw [PG_archive_copyPhase o dir fs path file h1 h2 h3' h4' h5']
            by_cases hc : (copy_file o (fs.remove (path ++ "/" ++ TEMP_FILE_NAME))
                path (path ++ "/" ++ TEMP_FILE_NAME)).ok = true
            · rw [if_pos hc]
              by_cases hrn : o.renameFails = true
              · refine ⟨fun e he => ?_, fun hok => ?_⟩
                · simp only [durable_rename, hrn, if_true, List.append_nil,
                    List.mem_cons] at he
                  rcases he with he | he | he
                  · subst he; rfl
                  · subst he; rfl
                  · exact copy_file_trace_writesTo o _ path _ _ hne e he
                · simp [durable_rename, hrn] at hok
              · have hrn' : o.renameFails = false := by simpa using hrn
                cases hg : (copy_file o (fs.remove (path ++ "/" ++ TEMP_FILE_NAME))
                    path (path ++ "/" ++ TEMP_FILE_NAME)).fs.get
                      (path ++ "/" ++ TEMP_FILE_NAME) with
                | none =>
                    refine ⟨fun e he => ?_, fun hok => ?_⟩
                    · simp only [durable_rename, hrn', Bool.false_eq_true, if_false,
                        hg, List.append_nil, List.mem_cons] at he
                      rcases he with he | he | he
                      · subst he; rfl
                      · subst he; rfl
                      · exact copy_file_trace_writesTo o _ path _ _ hne e he
                    · simp [durable_rename, hrn', hg] at hok
                | some tc =>
                    refine ⟨fun e he => ?_, fun hok => ?_⟩
                    · simp only [durable_rename, hrn', Bool.false_eq_true, if_false,
                        hg, List.mem_cons, List.mem_append] at he
                      rcases he with he | he | he | he
                      · subst he; rfl
                      · subst he; rfl
                      · exact copy_file_trace_writesTo o _ path _ _ hne e he
                      · simp at he
                        rcases he with he | he | he <;> subst he <;> rfl
                    · refine ⟨Event.statE (path ++ "/" ++ file) ::
                        Event.unlinkE (path ++ "/" ++ TEMP_FILE_NAME) ::
                        (copy_file o (fs.remove (path ++ "/" ++ TEMP_FILE_NAME))
                          path (path ++ "/" ++ TEMP_FILE_NAME)).trace, ?_, ?_, ?_⟩
                      · simp [durable_rename, hrn', hg]
                      · intro hmem
                        simp only [List.mem_cons] at hmem
                        rcases hmem with hmem | hmem | hmem
                        · simp at hmem
                        · simp at hmem
                        · have hcommit := copy_file_trace_noCommit o
                            (fs.remove (path ++ "/" ++ TEMP_FILE_NAME)) path
                            (path ++ "/" ++ TEMP_FILE_NAME) _ hmem
                          simp [Event.isCommit] at hcommit
                      · have hclose := copy_file_ok_close o
                          (fs.remove (path ++ "/" ++ TEMP_FILE_NAME)) path
                          (path ++ "/" ++ TEMP_FILE_NAME) hc
                        simp only [List.mem_cons]
                        tauto
            · rw [if_neg hc]
              refine ⟨fun e he => ?_, fun hok => by simp at hok⟩
              simp only [List.mem_cons] at he
              rcases he with he | he | he
              · subst he; rfl
              · subst he; rfl
              · exact copy_file_trace_writesTo o _ path _ _ hne e he

/-- Counterexample to claim C3 as stated: with destination name equal to the
reserved temporary name `"archtemp"`, even a fully successful execution
creates the final destination path by direct write (exclusive-create followed
by a data write), not only via the atomic rename. -/
theorem C3_counterexample :
    (PG_archive cleanOracle (some "x") [("q", [9])] "q" "archtemp").ok = true ∧
    Event.openCreateE ("q" ++ "/" ++ "archtemp") ∈
      (PG_archive cleanOracle (some "x") [("q", [9])] "q" "archtemp").trace ∧
    Event.writeE ("q" ++ "/" ++ "archtemp") 1 ∈
      (PG_archive cleanOracle (some "x") [("q", [9])] "q" "archtemp").trace := by
  decide

/-- Witness for C3 at a concrete input: in the successful run archiving file
`"w"` under name `"g"`, the data write that occurs (to the temporary path)
does not write to the final destination path. -/
theorem C3_witness :
    Event.writesTo (Event.writeE ("w" ++ "/" ++ "archtemp") 1)
      ("w" ++ "/" ++ "g") = false :=
  (C3_commit_protocol cleanOracle (some "x") [("w", [3])] "w" "g"
    (by decide)).1 (Event.writeE ("w" ++ "/" ++ "archtemp") 1) (by decide)

/-- Claim C4: whenever the final destination path already exists (for
instance on a second call with the same arguments after a successful first
call) and the earlier precondition checks pass, `_PG_archive` fails with the
"already archived" conflict error and leaves the whole filesystem — in
particular the existing final artifact — untouched byte-for-byte. -/
theorem C4_conflict (o : Oracle) (dir : Option String) (fs : FS)
    (path file : String) (d : List Byte)
    (h1 : ¬(dir = none ∨ dir = some ""))
    (h2 : ¬ MAXPGPATH ≤ path.length + max file.length TEMP_FILE_NAME.length + 2)
    (hex : fs.get (path ++ "/" ++ file) = some d) :
    (PG_archive o dir fs path file).ok = false ∧
    (PG_archive o dir fs path file).err = some .alreadyExists ∧
    (PG_archive o dir fs path file).fs = fs ∧
    (PG_archive o dir fs path file).fs.get (path ++ "/" ++ file) = some d := by
  have h3 : fs.hasFile (path ++ "/" ++ file) = true := by
    simp [FS.hasFile, hex]
  rw [PG_archive_alreadyExists o dir fs path file h1 h2 h3]
  exact ⟨rfl, rfl, rfl, hex⟩

/-- Witness for C4 at a concrete input: after a successful first call
archiving file `"d"` under name `"f"`, a second call with the same arguments
fails with the conflict error and leaves the archived artifact unchanged. -/
theorem C4_witness :
    (PG_archive cleanOracle (some "x")
        (PG_archive cleanOracle (some "x") [("d", [5, 6])] "d" "f").fs
        "d" "f").ok = false ∧
    (PG_archive cleanOracle (some "x")
        (PG_archive cleanOracle (some "x") [("d", [5, 6])] "d" "f").fs
        "d" "f").err = some .alreadyExists ∧
    (PG_archive cleanOracle (some "x")
        (PG_archive cleanOracle (some "x") [("d", [5, 6])] "d" "f").fs
        "d" "f").fs = (PG_archive cleanOracle (some "x") [("d", [5, 6])] "d" "f").fs ∧
    (PG_archive cleanOracle (some "x")
        (PG_archive cleanOracle (some "x") [("d", [5, 6])] "d" "f").fs
        "d" "f").fs.get ("d" ++ "/" ++ "f") = some [5, 6] :=
  C4_conflict cleanOracle (some "x")
    (PG_archive cleanOracle (some "x") [("d", [5, 6])] "d" "f").fs
    "d" "f" [5, 6] (by decide) (by decide) (by decide)

/-- Claim C5 is violated by the code: `copy_file`'s early failure exits
return without releasing the handles that were already opened.  At concrete
inputs: a read failure returns with both descriptors still open
(`openHandles = 2`); a destination-open failure (destination already exists)
returns with the source descriptor still open (`openHandles = 1`); only the
success path releases both. -/
theorem C5_handle_leak :
    (copy_file { cleanOracle with readFails := fun _ => true } [("s", [1])]
        "s" "t").err = some .readFailed ∧
    (copy_file { cleanOracle with readFails := fun _ => true } [("s", [1])]
        "s" "t").openHandles = 2 ∧
    (copy_file cleanOracle [("s", [1]), ("t", [])] "s" "t").err =
      some .openDstFailed ∧
    (copy_file cleanOracle [("s", [1]), ("t", [])] "s" "t").openHandles = 1 ∧
    (copy_file cleanOracle [("s", [1])] "s" "t").ok = true ∧
    (copy_file cleanOracle [("s", [1])] "s" "t").openHandles = 0 := by
  decide

set_option maxRecDepth 8192 in
/-- Counterexample to claim C6 as stated ("a combination exactly at the limit
passes the check"): a destination directory of length 1014 with a 1-byte
name has combined length — directory plus the longer of name and temporary
name plus separator and terminator — exactly `MAXPGPATH`, yet the call fails
it with the path-too-long error (and touches nothing: empty trace). -/
theorem C6_counterexample :
    (String.mk (List.replicate 1014 'a')).length +
        max ("b".length) TEMP_FILE_NAME.length + 2 = MAXPGPATH ∧
    (PG_archive cleanOracle (some "x") []
        (String.mk (List.replicate 1014 'a')) "b").err = some .pathTooLong ∧
    (PG_archive cleanOracle (some "x") []
        (String.mk (List.replicate 1014 'a')) "b").trace = [] := by
  decide

/-- Claim C6 (amended): with the directory configured, `_PG_archive` fails
with the path-too-long error — before performing any filesystem operation
(empty trace, filesystem unchanged) — exactly when the combined length of
the destination directory plus the longer of the destination name and the
fixed temporary name, plus separator and terminator, reaches or exceeds the
platform path limit `MAXPGPATH`; a combination one byte under the limit
passes the check, while one exactly at the limit already fails. -/
theorem C6_path_length_check (o : Oracle) (dir : Option String) (fs : FS)
    (path file : String)
    (h1 : ¬(dir = none ∨ dir = some "")) :
    (MAXPGPATH ≤ path.length + max file.length TEMP_FILE_NAME.length + 2 →
      PG_archive o dir fs path file = ⟨false, some .pathTooLong, fs, []⟩) ∧
    (path.length + max file.length TEMP_FILE_NAME.length + 2 < MAXPGPATH →
      (PG_archive o dir fs path file).err ≠ some .pathTooLong) := by
  constructor
  · intro h2
    exact PG_archive_tooLong o dir fs path file h1 h2
  · intro hlt
    have h2 : ¬ MAXPGPATH ≤ path.length + max file.length TEMP_FILE_NAME.length + 2 := by
      omega
    by_cases h3 : fs.hasFile (path ++ "/" ++ file) = true
    · rw [PG_archive_alreadyExists o dir fs path file h1 h2 h3]
      simp
    · have h3' : fs.hasFile (path ++ "/" ++ file) = false := by simpa using h3
      by_cases h4 : o.statDestFails = true
      · rw [PG_archive_statFail o dir fs path file h1 h2 h3' h4]
        simp
      · have h4' : o.statDestFails = false := by simpa using h4
        by_cases h5 : o.unlinkFails = true
        · rw [PG_archive_unlinkFail o dir fs path file h1 h2 h3' h4' h5]
          simp
        · have h5' : o.unlinkFails = false := by simpa using h5
          rw [PG_archive_copyPhase o dir fs path file h1 h2 h3' h4' h5']
          by_cases hc : (copy_file o (fs.remove (path ++ "/" ++ TEMP_FILE_NAME))
              path (path ++ "/" ++ TEMP_FILE_NAME)).ok = true
          · rw [if_pos hc]
            by_cases hrn : (durable_rename o
                (copy_file o (fs.remove (path ++ "/" ++ TEMP_FILE_NAME)) path
                  (path ++ "/" ++ TEMP_FILE_NAME)).fs
                (path ++ "/" ++ TEMP_FILE_NAME) (path ++ "/" ++ file) path).1 = true
            · rw [if_pos hrn]
              simp
            · rw [if_neg hrn]
              simp
          · rw [if_neg hc]
            intro hbad
            have hb : (copy_file o (fs.remove (path ++ "/" ++ TEMP_FILE_NAME)) path
                (path ++ "/" ++ TEMP_FILE_NAME)).err = some .pathTooLong := hbad
            have := copy_file_err_transfer o _ path _ _ hb
            simp [ArchiveError.isTransferError] at this

set_option maxRecDepth 8192 in
/-- Witness for C6 at a concrete input: with the directory configured and a
name/directory combination whose combined length reaches the limit, the call
returns the path-too-long error with the filesystem untouched. -/
theorem C6_witness :
    PG_archive cleanOracle (some "x") []
        (String.mk (List.replicate 1014 'a')) "bc" =
      ⟨false, some .pathTooLong, [], []⟩ :=
  (C6_path_length_check cleanOracle (some "x") []
    (String.mk (List.replicate 1014 'a')) "bc" (by decide)).1 (by decide)

/-- Claim C7: a write that transfers fewer bytes than requested fails the
transfer immediately with a write I/O error whose code is the one the failing
write left in `errno`, or no-space-left (`ENOSPC`) when `errno` was left
unset; and whenever `_PG_archive` reports a write failure the call returns
failure, the error code obeys that inference, and the commit machinery
(file flush, rename, directory flush) is never reached. -/
theorem C7_short_write_enospc :
    (∀ (o : Oracle) (fuel k : Nat) (b : Byte) (bs dstC : List Byte)
        (src dst : String) (cap : Nat),
      o.readFails k = false → o.writeCap k = some cap →
      cap < ((b :: bs).take COPY_BUF_SIZE).length →
      (copyLoop o (fuel + 1) k (b :: bs) dstC src dst).1 =
        some (.writeFailed (if o.writeErrno k = 0 then ENOSPC else o.writeErrno k))) ∧
    (∀ (o : Oracle) (dir : Option String) (fs : FS) (path file : String) (n : Nat),
      (PG_archive o dir fs path file).err = some (.writeFailed n) →
      (PG_archive o dir fs path file).ok = false ∧
      (∀ e ∈ (PG_archive o dir fs path file).trace, e.isCommit = false) ∧
      ∃ j cap, o.writeCap j = some cap ∧
        n = if o.writeErrno j = 0 then ENOSPC else o.writeErrno j) := by
  constructor
  · intro o fuel k b bs dstC src dst cap hr hcap hlt
    exact copyLoop_short_write o fuel k b bs dstC src dst cap hr hcap hlt
  · intro o dir fs path file n he
    by_cases h1 : dir = none ∨ dir = some ""
    · rw [PG_archive_noDir o dir fs path file h1] at he
      simp at he
    · by_cases h2 : MAXPGPATH ≤ path.length + max file.length TEMP_FILE_NAME.length + 2
      · rw [PG_archive_tooLong o dir fs path file h1 h2] at he
        simp at he
      · by_cases h3 : fs.hasFile (path ++ "/" ++ file) = true
        · rw [PG_archive_alreadyExists o dir fs path file h1 h2 h3] at he
          simp at he
        · have h3' : fs.hasFile (path ++ "/" ++ file) = false := by simpa using h3
          by_cases h4 : o.statDestFails = true
          · rw [PG_archive_statFail o dir fs path file h1 h2 h3' h4] at he
            simp at he
          · have h4' : o.statDestFails = false := by simpa using h4
            by_cases h5 : o.unlinkFails = true
            · rw [PG_archive_unlinkFail o dir fs path file h1 h2 h3' h4' h5] at he
              simp at he
            · have h5' : o.unlinkFails = false := by simpa using h5
              rw [PG_archive_copyPhase o dir fs path file h1 h2 h3' h4' h5'] at he ⊢
              by_cases hc : (copy_file o (fs.remove (path ++ "/" ++ TEMP_FILE_NAME))
                  path (path ++ "/" ++ TEMP_FILE_NAME)).ok = true
              · rw [if_pos hc] at he
                by_cases hrn : (durable_rename o
                    (copy_file o (fs.remove (path ++ "/" ++ TEMP_FILE_NAME)) path
                      (path ++ "/" ++ TEMP_FILE_NAME)).fs
                    (path ++ "/" ++ TEMP_FILE_NAME) (path ++ "/" ++ file) path).1 = true
                · rw [if_pos hrn] at he
                  simp at he
                · rw [if_neg hrn] at he
                  simp at he
              · rw [if_neg hc] at he ⊢
                have hb : (copy_file o (fs.remove (path ++ "/" ++ TEMP_FILE_NAME)) path
                    (path ++ "/" ++ TEMP_FILE_NAME)).err = some (.writeFailed n) := he
                refine ⟨rfl, ?_, copy_file_writeFailed_errno o _ path _ n hb⟩
                intro e hmem
                have hmem' : e ∈ Event.statE (path ++ "/" ++ file) ::
                    Event.unlinkE (path ++ "/" ++ TEMP_FILE_NAME) ::
                    (copy_file o (fs.remove (path ++ "/" ++ TEMP_FILE_NAME)) path
                      (path ++ "/" ++ TEMP_FILE_NAME)).trace := hmem
                simp only [List.mem_cons] at hmem'
                rcases hmem' with h | h | h
                · subst h; rfl
                · subst h; rfl
                · exact copy_file_trace_noCommit o _ path _ e h

/-- Witness for C7 at a concrete input: writing one byte when the device
accepts zero bytes and leaves `errno` unset fails the transfer with the
no-space-left error. -/
theorem C7_witness :
    (copyLoop { cleanOracle with writeCap := fun _ => some 0 } 1 0 [7] []
        "s" "t").1 = some (.writeFailed ENOSPC) := by
  have h := C7_short_write_enospc.1 { cleanOracle with writeCap := fun _ => some 0 }
    0 0 7 [] [] "s" "t" 0 rfl rfl (by decide)
  simpa using h

/-- Claim C8: the precondition checks of `_PG_archive` run in the fixed
order — (1) directory configured and non-empty, (2) path length, (3) stat of
the final destination (conflict when present, filesystem-access error when
the stat fails otherwise), (4) unlink of a stale temporary artifact — and
each failing check stops the call immediately: the result carries exactly
that check's error, the filesystem is unchanged and the trace records only
the filesystem operations performed up to that point. -/
theorem C8_check_order (o : Oracle) (dir : Option String) (fs : FS)
    (path file : String) :
    ((dir = none ∨ dir = some "") →
      PG_archive o dir fs path file = ⟨false, some .noArchiveDirectory, fs, []⟩) ∧
    (¬(dir = none ∨ dir = some "") →
      MAXPGPATH ≤ path.length + max file.length TEMP_FILE_NAME.length + 2 →
      PG_archive o dir fs path file = ⟨false, some .pathTooLong, fs, []⟩) ∧
    (¬(dir = none ∨ dir = some "") →
      ¬ MAXPGPATH ≤ path.length + max file.length TEMP_FILE_NAME.length + 2 →
      fs.hasFile (path ++ "/" ++ file) = true →
      PG_archive o dir fs path file =
        ⟨false, some .alreadyExists, fs, [.statE (path ++ "/" ++ file)]⟩) ∧
    (¬(dir = none ∨ dir = some "") →
      ¬ MAXPGPATH ≤ path.length + max file.length TEMP_FILE_NAME.length + 2 →
      fs.hasFile (path ++ "/" ++ file) = false →
      o.statDestFails = true →
      PG_archive o dir fs path file =
        ⟨false, some .statFailed, fs, [.statE (path ++ "/" ++ file)]⟩) ∧
    (¬(dir = none ∨ dir = some "") →
      ¬ MAXPGPATH ≤ path.length + max file.length TEMP_FILE_NAME.length + 2 →
      fs.hasFile (path ++ "/" ++ file) = false →
      o.statDestFails = false →
      o.unlinkFails = true →
      PG_archive o dir fs path file =
        ⟨false, some .unlinkFailed, fs,
         [.statE (path ++ "/" ++ file), .unlinkE (path ++ "/" ++ TEMP_FILE_NAME)]⟩) :=
  ⟨fun h1 => PG_archive_noDir o dir fs path file h1,
   fun h1 h2 => PG_archive_tooLong o dir fs path file h1 h2,
   fun h1 h2 h3 => PG_archive_alreadyExists o dir fs path file h1 h2 h3,
   fun h1 h2 h3 h4 => PG_archive_statFail o dir fs path file h1 h2 h3 h4,
   fun h1 h2 h3 h4 h5 => PG_archive_unlinkFail o dir fs path file h1 h2 h3 h4 h5⟩

/-- Witness for C8 at concrete inputs: an empty directory setting stops with
the configuration error and no trace; with everything configured and a stale
unlink failure, the call stops with the filesystem-access error after exactly
the stat and the unlink attempt. -/
theorem C8_witness :
    PG_archive cleanOracle (some "") [] "p" "f" =
      ⟨false, some .noArchiveDirectory, [], []⟩ ∧
    PG_archive { cleanOracle with unlinkFails := true } (some "x")
        [("p", [7])] "p" "f" =
      ⟨false, some .unlinkFailed, [("p", [7])],
       [.statE ("p" ++ "/" ++ "f"), .unlinkE ("p" ++ "/" ++ TEMP_FILE_NAME)]⟩ :=
  ⟨(C8_check_order cleanOracle (some "") [] "p" "f").1 (Or.inr rfl),
   (C8_check_order { cleanOracle with unlinkFails := true } (some "x")
      [("p", [7])] "p" "f").2.2.2.2 (by decide) (by decide) (by decide)
      (by decide) (by decide)⟩

/-- Claim C9: the startup validation of the archive-directory setting accepts
an unset (NULL) or empty value without consulting the filesystem, and rejects
a non-empty value exactly when it does not name an existing directory; an
unconfigured directory is therefore only detected inside each archive call,
which fails with the configuration error. -/
theorem C9_startup_validation :
    (∀ env : String → Option Bool, check_archive_directory env none = true) ∧
    (∀ env : String → Option Bool, check_archive_directory env (some "") = true) ∧
    (∀ (env : String → Option Bool) (s : String), s ≠ "" →
      (check_archive_directory env (some s) = true ↔ env s = some true)) ∧
    (∀ (o : Oracle) (fs : FS) (path file : String),
      (PG_archive o none fs path file).err = some .noArchiveDirectory ∧
      (PG_archive o (some "") fs path file).err = some .noArchiveDirectory) := by
  refine ⟨fun env => rfl, fun env => by simp [check_archive_directory],
    fun env s hs => ?_, fun o fs path file => ?_⟩
  · simp only [check_archive_directory, if_neg hs]
    cases henv : env s with
    | none => simp
    | some b => cases b <;> simp
  · constructor
    · rw [PG_archive_noDir o none fs path file (Or.inl rfl)]
    · rw [PG_archive_noDir o (some "") fs path file (Or.inr rfl)]

/-- Witness for C9 at concrete inputs: validation accepts `"z"` when the
environment reports an existing directory, and accepts the empty setting even
when every `stat` would fail. -/
theorem C9_witness :
    check_archive_directory (fun _ => some true) (some "z") = true ∧
    check_archive_directory (fun _ => none) (some "") = true :=
  ⟨(C9_startup_validation.2.2.1 (fun _ => some true) "z" (by decide)).mpr rfl,
   C9_startup_validation.2.1 (fun _ => none)⟩

end BasicArchive

/-!
Correctness of the AVX-512 population-count model against the scalar
reference count.
-/

namespace Popcount

theorem popcount_eq (n : Nat) : popcount n = n % 2 + popcount (n / 2) := by
  cases n with
  | zero => simp [popcount]
  | succ m => simp [popcount]

theorem popcount_add_pow : ∀ (k a b : Nat), a < 2 ^ k →
    popcount (a + 2 ^ k * b) = popcount a + popcount b := by
  intro k
  induction k with
  | zero =>
      intro a b ha
      have h0 : a = 0 := by omega
      subst h0
      simp [popcount]
  | succ k ih =>
      intro a b ha
      have h2 : a + 2 ^ (k + 1) * b = a + 2 * (2 ^ k * b) := by ring
      rw [h2, popcount_eq (a + 2 * (2 ^ k * b))]
      have hmod : (a + 2 * (2 ^ k * b)) % 2 = a % 2 := by omega
      have hdiv : (a + 2 * (2 ^ k * b)) / 2 = a / 2 + 2 ^ k * b := by omega
      have hp : (2 : Nat) ^ (k + 1) = 2 ^ k * 2 := pow_succ 2 k
      have hhalf : a / 2 < 2 ^ k := by omega
      rw [hmod, hdiv, ih (a / 2) b hhalf, popcount_eq a]
      omega

theorem popcount_le (k : Nat) : ∀ a, a < 2 ^ k → popcount a ≤ k := by
  induction k with
  | zero =>
      intro a ha
      have h0 : a = 0 := by omega
      subst h0
      simp [popcount]
  | succ k ih =>
      intro a ha
      rw [popcount_eq a]
      have hp : (2 : Nat) ^ (k + 1) = 2 ^ k * 2 := pow_succ 2 k
      have h2 : popcount (a / 2) ≤ k := ih (a / 2) (by omega)
      omega

theorem pc_cons (b : Nat) (l : List Nat) : pc (b :: l) = popcount b + pc l := by
  simp [pc]

theorem pc_append (a b : List Nat) : pc (a ++ b) = pc a + pc b := by
  simp [pc]

theorem pc_le (l : List Nat) (h : ∀ b ∈ l, b < 256) : pc l ≤ 8 * l.length := by
  induction l with
  | nil => simp [pc]
  | cons b bs ih =>
      rw [pc_cons]
      have hb : popcount b ≤ 8 := popcount_le 8 b (by simpa using h b (by simp))
      have hrest := ih (fun x hx => h x (by simp [hx]))
      simp only [List.length_cons]
      omega

theorem pc_take_drop (n : Nat) (l : List Nat) :
    pc l = pc (l.take n) + pc (l.drop n) := by
  rw [← pc_append, List.take_append_drop]

theorem bytesToWord_cons (b : Nat) (bs : List Nat) :
    bytesToWord (b :: bs) = b + 256 * bytesToWord bs := rfl

theorem popcount_bytesToWord (bs : List Nat) (h : ∀ b ∈ bs, b < 256) :
    popcount (bytesToWord bs) = pc bs := by
  induction bs with
  | nil => simp [bytesToWord, pc, popcount]
  | cons b rest ih =>
      rw [bytesToWord_cons, pc_cons]
      have hb : b < 2 ^ 8 := by simpa using h b (by simp)
      have h256 : (256 : Nat) = 2 ^ 8 := by norm_num
      rw [h256, popcount_add_pow 8 b (bytesToWord rest) hb,
        ih (fun x hx => h x (by simp [hx]))]

theorem toLanes_pc (block : List Nat) (hlen : block.length = 64)
    (hb : ∀ b ∈ block, b < 256) :
    ((toLanes block).map popcount).sum = pc block := by
  have hchunk : ∀ k : Nat, popcount (bytesToWord ((block.drop k).take 8)) =
      pc ((block.drop k).take 8) := by
    intro k
    exact popcount_bytesToWord _
      (fun x hx => hb x (List.drop_subset k block (List.take_subset 8 _ hx)))
  simp only [toLanes, List.map_cons, List.map_nil, List.sum_cons, List.sum_nil]
  rw [hchunk 0, hchunk 8, hchunk 16, hchunk 24, hchunk 32, hchunk 40,
    hchunk 48, hchunk 56, List.drop_zero]
  have e0 := pc_take_drop 8 block
  have e1 := pc_take_drop 8 (block.drop 8)
  have e2 := pc_take_drop 8 (block.drop 16)
  have e3 := pc_take_drop 8 (block.drop 24)
  have e4 := pc_take_drop 8 (block.drop 32)
  have e5 := pc_take_drop 8 (block.drop 40)
  have e6 := pc_take_drop 8 (block.drop 48)
  have e7 := pc_take_drop 8 (block.drop 56)
  simp only [List.drop_drop] at e1 e2 e3 e4 e5 e6 e7
  norm_num at e1 e2 e3 e4 e5 e6 e7
  have hnil : block.drop 64 = [] := List.drop_eq_nil_of_le (by omega)
  have hz : pc ([] : List Nat) = 0 := rfl
  rw [hnil, hz] at e7
  omega

theorem vecPopcnt64_toLanes_le (block : List Nat) (hb : ∀ b ∈ block, b < 256) :
    ∀ y ∈ vecPopcnt64 (toLanes block), y ≤ 64 := by
  intro y hy
  have hgen : ∀ k : Nat, popcount (bytesToWord ((block.drop k).take 8)) ≤ 64 := by
    intro k
    have hmem : ∀ x ∈ (block.drop k).take 8, x < 256 :=
      fun x hx => hb x (List.drop_subset k block (List.take_subset 8 _ hx))
    rw [popcount_bytesToWord _ hmem]
    have hle := pc_le _ hmem
    have hl8 : ((block.drop k).take 8).length ≤ 8 := by
      simp [List.length_take]
    omega
  simp only [vecPopcnt64, toLanes, List.map_cons, List.map_nil,
    List.mem_cons, List.not_mem_nil, or_false] at hy
  rcases hy with h | h | h | h | h | h | h | h <;> (subst h; exact hgen _)

theorem vecPopcnt64_sum (block : List Nat) (hlen : block.length = 64)
    (hb : ∀ b ∈ block, b < 256) :
    (vecPopcnt64 (toLanes block)).sum = pc block :=
  toLanes_pc block hlen hb

theorem vecAdd64_sum : ∀ (a b : List Nat), a.length = b.length →
    (∀ x ∈ a, ∀ y ∈ b, x + y < U64) →
    (vecAdd64 a b).sum = a.sum + b.sum := by
  intro a
  induction a with
  | nil =>
      intro b hl _
      cases b with
      | nil => simp [vecAdd64]
      | cons y ys => simp at hl
  | cons x xs ih =>
      intro b hl hp
      cases b with
      | nil => simp at hl
      | cons y ys =>
          simp only [vecAdd64, List.zipWith_cons_cons, List.sum_cons]
          rw [Nat.mod_eq_of_lt (hp x (by simp) y (by simp))]
          have hrec := ih ys (by simpa using hl)
            (fun u hu v hv => hp u (by simp [hu]) v (by simp [hv]))
          simp only [vecAdd64] at hrec
          omega

theorem avxLoop_spec : ∀ (bytes : Nat) (buf accum : List Nat),
    bytes ≤ buf.length → (∀ b ∈ buf, b < 256) → accum.length = 8 →
    accum.sum + 8 * bytes < U64 →
    (avxLoop buf bytes accum).1.sum =
        accum.sum + pc (buf.take (64 * (bytes / 64))) ∧
    (avxLoop buf bytes accum).2.1 = buf.drop (64 * (bytes / 64)) ∧
    (avxLoop buf bytes accum).2.2 = bytes % 64 := by
  intro bytes
  induction bytes using Nat.strong_induction_on with
  | _ bytes ih =>
      intro buf accum hlen hb hacc hbound
      by_cases h : 64 ≤ bytes
      · rw [avxLoop, dif_pos h]
        have hblen : (buf.take 64).length = 64 := by
          rw [List.length_take]
          omega
        have hbmem : ∀ b ∈ buf.take 64, b < 256 :=
          fun b hbm => hb b (List.take_subset _ _ hbm)
        have hcnt_le : ∀ y ∈ vecPopcnt64 (toLanes (buf.take 64)), y ≤ 64 :=
          vecPopcnt64_toLanes_le _ hbmem
        have hcnt_len : (vecPopcnt64 (toLanes (buf.take 64))).length = 8 := rfl
        have hcnt_sum : (vecPopcnt64 (toLanes (buf.take 64))).sum = pc (buf.take 64) :=
          vecPopcnt64_sum _ hblen hbmem
        have hpair : ∀ x ∈ accum, ∀ y ∈ vecPopcnt64 (toLanes (buf.take 64)),
            x + y < U64 := by
          intro x hx y hy
          have h1 : x ≤ accum.sum := List.le_sum_of_mem hx
          have h2 : y ≤ 64 := hcnt_le y hy
          omega
        have hsum' : (vecAdd64 accum (vecPopcnt64 (toLanes (buf.take 64)))).sum =
            accum.sum + pc (buf.take 64) := by
          rw [vecAdd64_sum accum _ (by rw [hacc, hcnt_len]) hpair, hcnt_sum]
        have hlen' : (vecAdd64 accum (vecPopcnt64 (toLanes (buf.take 64)))).length = 8 := by
          rw [vecAdd64, List.length_zipWith, hacc, hcnt_len]
          omega
        have hpcle : pc (buf.take 64) ≤ 512 := by
          have hple := pc_le _ hbmem
          omega
        have hrec := ih (bytes - 64) (by omega) (buf.drop 64)
          (vecAdd64 accum (vecPopcnt64 (toLanes (buf.take 64))))
          (by rw [List.length_drop]; omega)
          (fun b hbm => hb b (List.drop_subset _ _ hbm))
          hlen'
          (by rw [hsum']; omega)
        obtain ⟨hs, hd, hm⟩ := hrec
        have hq : 64 * (bytes / 64) = 64 + 64 * ((bytes - 64) / 64) := by omega
        refine ⟨?_, ?_, ?_⟩
        · rw [hs, hsum', hq, List.take_add, pc_append]
          omega
        · rw [hd, List.drop_drop, hq]
        · rw [hm]
          omega
      · rw [avxLoop, dif_neg h]
        have h0 : bytes / 64 = 0 := by omega
        rw [h0]
        refine ⟨by simp [pc], by simp, ?_⟩
        simp only []
        omega

theorem foldl_mod_eq_sum : ∀ (l : List Nat) (a : Nat), a + l.sum < U64 →
    l.foldl (fun x y => (x + y) % U64) a = a + l.sum := by
  intro l
  induction l with
  | nil =>
      intro a h
      simp
  | cons x xs ih =>
      intro a h
      simp only [List.foldl_cons, List.sum_cons] at h ⊢
      rw [Nat.mod_eq_of_lt (by omega), ih (a + x) (by omega)]
      omega

theorem reduceAdd64_eq_sum (l : List Nat) (h : l.sum < U64) :
    reduceAdd64 l = l.sum := by
  have hf := foldl_mod_eq_sum l 0 (by omega)
  simpa [reduceAdd64] using hf

/-- Claim C10: for every byte buffer and non-negative byte count within the
buffer (and within the `int` range of the C parameter), `pg_popcount_avx512`
returns exactly the total number of 1-bits in the first `bytes` bytes: the
vectorized computation (64-byte blocks accumulated lanewise, remainder
delegated to `pg_popcount_fast`) equals the scalar reference popcount of the
same bytes. -/
theorem C10_avx512_eq_scalar (buf : List Nat) (bytes : Nat)
    (hlen : bytes ≤ buf.length) (hint : bytes < 2 ^ 31)
    (hb : ∀ b ∈ buf, b < 256) :
    pg_popcount_avx512 buf bytes = spec_popcount buf bytes := by
  have hU : U64 = 18446744073709551616 := by norm_num [U64]
  have hint' : bytes < 2147483648 := by
    have hp : (2 : Nat) ^ 31 = 2147483648 := by norm_num
    omega
  have hz1 : zeroVec.length = 8 := rfl
  have hz2 : zeroVec.sum = 0 := rfl
  obtain ⟨hs, hd, hm⟩ := avxLoop_spec bytes buf zeroVec hlen hb hz1
    (by rw [hz2]; omega)
  have hq : 64 * (bytes / 64) ≤ bytes := by omega
  have hpc1 : pc (buf.take (64 * (bytes / 64))) ≤ 8 * bytes := by
    have h1 := pc_le _ (fun b hbm => hb b (List.take_subset _ _ hbm) :
      ∀ b ∈ buf.take (64 * (bytes / 64)), b < 256)
    have h2 : (buf.take (64 * (bytes / 64))).length ≤ 64 * (bytes / 64) := by
      simp [List.length_take]
    omega
  have hpcb : pc (buf.take bytes) ≤ 8 * bytes := by
    have h1 := pc_le _ (fun b hbm => hb b (List.take_subset _ _ hbm) :
      ∀ b ∈ buf.take bytes, b < 256)
    have h2 : (buf.take bytes).length ≤ bytes := by
      simp [List.length_take]
    omega
  have hsplit : buf.take bytes =
      buf.take (64 * (bytes / 64)) ++
        (buf.drop (64 * (bytes / 64))).take (bytes % 64) := by
    have hbeq : bytes = 64 * (bytes / 64) + bytes % 64 := by omega
    conv_lhs => rw [hbeq]
    exact List.take_add buf _ _
  have hab : pc (buf.take (64 * (bytes / 64))) +
      pc ((buf.drop (64 * (bytes / 64))).take (bytes % 64)) =
      pc (buf.take bytes) := by
    rw [hsplit, pc_append]
  have hr1 : reduceAdd64 (avxLoop buf bytes zeroVec).1 =
      pc (buf.take (64 * (bytes / 64))) := by
    rw [reduceAdd64_eq_sum _ (by rw [hs, hz2]; omega), hs, hz2, Nat.zero_add]
  have hfast : pg_popcount_fast (avxLoop buf bytes zeroVec).2.1
      (avxLoop buf bytes zeroVec).2.2 =
      pc ((buf.drop (64 * (bytes / 64))).take (bytes % 64)) := by
    rw [hd, hm]
    rfl
  simp only [pg_popcount_avx512]
  rw [hr1, hfast, hab, Nat.mod_eq_of_lt (by omega)]
  rfl

/-- Witness for C10 at a concrete input: a 70-byte buffer, so the AVX-512
block loop runs once and six bytes remain for the fallback. -/
theorem C10_witness :
    pg_popcount_avx512 (List.replicate 70 213) 70 =
      spec_popcount (List.replicate 70 213) 70 :=
  C10_avx512_eq_scalar (List.replicate 70 213) 70 (by decide) (by decide)
    (by decide)

end Popcount
